import Mathlib

/-!
A shallow embedding of the pattern-matching engine of PG1003/lex
(src/src/lex.h and src/src/lex.cpp), together with theorems that settle the
claims of the accompanying specification against this code.

Modelling conventions:

* Code units are natural numbers (`Nat`); the C++ code casts units to an
  unsigned common type before every comparison, which `Nat` reflects.
  Character literals appear as their ASCII codes with a comment.
* Subject and pattern are `List Nat`.  A read through a pointer is modelled
  by indexed access with default 0 (`List.getD _ _ 0`): the C++ code reads
  one unit past the end of the subject in a few places (for example the
  frontier construct reads `*s` at `s == s_end`), which is in-bounds and
  yields 0 for the NUL-terminated buffers the library is used with.
* The mutable match state (`match_state`: capture level, the capture array
  and the `matchdepth` field) is threaded explicitly through every call,
  exactly where the C++ code mutates it in place.  The capture array is
  modelled as a total map `Nat → Capture`; the C++ array has MAXCAPTURES
  entries, and accesses beyond that bound (which the C++ code does not
  prevent) are modelled by the same total map.
* Recursion is indexed by an explicit fuel argument so that every function
  is structurally recursive and kernel-computable.  Running out of fuel
  returns the failure value with the state unchanged; all universal
  theorems below are proved for every fuel value, and the concrete
  evaluations use a fuel that is amply sufficient.
* Undefined behaviour of the C++ code (a failed assertion, or an
  out-of-bounds array access) is completed deterministically; each such
  completion is noted at the definition it concerns.
-/

namespace PgLex

/-! ### ASCII character classification (src/src/lex.cpp, match_class)

The C++ code calls the C locale functions; the library documents ASCII
semantics (the default "C" locale), which these tables hard-code. -/

def isdigitA (c : Nat) : Bool := decide (48 ≤ c ∧ c ≤ 57)

def isalphaA (c : Nat) : Bool := decide ((65 ≤ c ∧ c ≤ 90) ∨ (97 ≤ c ∧ c ≤ 122))

def iscntrlA (c : Nat) : Bool := decide (c < 32 ∨ c = 127)

def isgraphA (c : Nat) : Bool := decide (33 ≤ c ∧ c ≤ 126)

def islowerA (c : Nat) : Bool := decide (97 ≤ c ∧ c ≤ 122)

def isupperA (c : Nat) : Bool := decide (65 ≤ c ∧ c ≤ 90)

def isalnumA (c : Nat) : Bool := isalphaA c || isdigitA c

def ispunctA (c : Nat) : Bool := isgraphA c && !isalnumA c

def isspaceA (c : Nat) : Bool := decide ((9 ≤ c ∧ c ≤ 13) ∨ c = 32)

def isxdigitA (c : Nat) : Bool :=
  isdigitA c || decide ((65 ≤ c ∧ c ≤ 70) ∨ (97 ≤ c ∧ c ≤ 102))

def tolowerA (c : Nat) : Nat := if 65 ≤ c ∧ c ≤ 90 then c + 32 else c

/-- pg::lex::detail::match_class (lex.cpp): switch on tolower(cl); the
default case compares the class unit with the subject unit; a lower-case
class letter keeps the predicate, any other case spelling negates it. -/
def matchClass (c cl : Nat) : Bool :=
  let l := tolowerA cl
  let res? : Option Bool :=
    if l = 97 then some (isalphaA c)        -- 'a'
    else if l = 99 then some (iscntrlA c)   -- 'c'
    else if l = 100 then some (isdigitA c)  -- 'd'
    else if l = 103 then some (isgraphA c)  -- 'g'
    else if l = 108 then some (islowerA c)  -- 'l'
    else if l = 112 then some (ispunctA c)  -- 'p'
    else if l = 115 then some (isspaceA c)  -- 's'
    else if l = 117 then some (isupperA c)  -- 'u'
    else if l = 119 then some (isalnumA c)  -- 'w'
    else if l = 120 then some (isxdigitA c) -- 'x'
    else if l = 122 then some (decide (c = 0)) -- 'z' (deprecated)
    else none
  match res? with
  | none => decide (cl = c)
  | some res => if islowerA cl then res else !res

/-! ### Data model -/

/-- detail::capture (lex.h): a subject pointer (none models nullptr) and a
length that is -1 (unfinished), -2 (position capture) or a finished
length. -/
structure Capture where
  begin : Option Nat := none
  length : Int := -1
deriving DecidableEq, Repr

/-- The mutable part of detail::match_state (lex.h): the capture level, the
capture array (a total map; the C++ array has MAXCAPTURES = 32 entries and
the code never bounds-checks it), and the matchdepth field, which the
constructor initializes to MAXCCALLS = 200. -/
structure MatchState where
  level : Nat := 0
  caps : Nat → Capture := fun _ => {}
  matchdepth : Nat := 200

/-- The immutable part of detail::match_state: subject bounds and pattern
bounds (s_begin, s_end, p_end).  Positions are indices into these lists. -/
structure Ctx where
  subj : List Nat
  pat : List Nat

def Ctx.slen (c : Ctx) : Nat := c.subj.length

def Ctx.plen (c : Ctx) : Nat := c.pat.length

/-- Read one subject unit; past-the-end reads yield 0 (the terminator of
the NUL-terminated buffers the engine is used with). -/
def Ctx.sget (c : Ctx) (i : Nat) : Nat := c.subj.getD i 0

/-- Read one pattern unit; past-the-end reads yield 0. -/
def Ctx.pget (c : Ctx) (i : Nat) : Nat := c.pat.getD i 0

/-- Write one slot of the capture array. -/
def setCap (st : MatchState) (i : Nat) (cap : Capture) : MatchState :=
  { st with caps := fun j => if j = i then cap else st.caps j }

/-! ### Character-class evaluator (lex.h) -/

/-- The loop body of detail::matchbracketclass.  `p` is at the first set
element (after '[' and an optional '^'), `ret` is the result polarity.
Returns the pair the C++ code returns: a pattern position and the
membership verdict.  Each non-returning branch advances `p` and then
evaluates the do-while condition (stop when the new unit is ']').  The fuel
is exhausted only if the set has no closing ']' inside the pattern, a case
the validator excludes. -/
def mbcLoop (ctx : Ctx) (c : Nat) : Nat → Nat → Bool → Nat × Bool
  | 0, p, ret => (p, !ret)
  | k + 1, p, ret =>
    if ctx.pget p = 37 then                  -- '%' escape inside the set
      if matchClass c (ctx.pget (p + 1)) then (p + 2, ret)
      else if ctx.pget (p + 2) = 93 then (p + 2, !ret)
      else mbcLoop ctx c k (p + 2) ret
    else if ctx.pget (p + 1) = 45 ∧ p + 2 < ctx.plen ∧ ctx.pget (p + 2) ≠ 93 then
      -- a-b range: recognized only when '-' is not last and not before ']'
      if ctx.pget p ≤ c ∧ c ≤ ctx.pget (p + 2) then (p + 3, ret)
      else if ctx.pget (p + 3) = 93 then (p + 3, !ret)
      else mbcLoop ctx c k (p + 3) ret
    else if ctx.pget p = c then (p + 1, ret)
    else if ctx.pget (p + 1) = 93 then (p + 1, !ret)
    else mbcLoop ctx c k (p + 1) ret

/-- detail::matchbracketclass (lex.h): `p` is at '['.  The unit after '['
may be '^', inverting the verdict. -/
def mbc (ctx : Ctx) (c p : Nat) : Nat × Bool :=
  if ctx.pget (p + 1) = 94 then mbcLoop ctx c (ctx.plen + 2) (p + 2) false
  else mbcLoop ctx c (ctx.plen + 2) (p + 1) true

/-- detail::find_bracket_class_end, the unchecked overload used during
matching (lex.h): skip '%' escapes, return the position just past ']'. -/
def fbcEnd (ctx : Ctx) : Nat → Nat → Nat
  | 0, p => p
  | k + 1, p =>
    let p1 := if ctx.pget p = 37 then p + 2 else p
    if ctx.pget p1 = 93 then p1 + 1 else fbcEnd ctx k (p1 + 1)

def fbcEndF (ctx : Ctx) (p : Nat) : Nat := fbcEnd ctx (ctx.plen + 2) p

/-- detail::single_match (lex.h): does unit `c` match the single pattern
item at `p`. -/
def singleMatch (ctx : Ctx) (c p : Nat) : Bool :=
  if ctx.pget p = 46 then true                            -- '.'
  else if ctx.pget p = 37 then matchClass c (ctx.pget (p + 1))
  else if ctx.pget p = 91 then (mbc ctx c p).2            -- '['
  else decide (ctx.pget p = c)

/-- detail::single_match_pr (lex.h): match the item at pattern position `p`
against the subject unit at `s`, returning the position just past the item
and the verdict. -/
def singleMatchPr (ctx : Ctx) (s p : Nat) : Nat × Bool :=
  let notEnd := decide (s < ctx.slen)
  if ctx.pget p = 46 then (p + 1, notEnd)                 -- '.'
  else if ctx.pget p = 37 then
    (p + 2, notEnd && matchClass (ctx.sget s) (ctx.pget (p + 1)))
  else if ctx.pget p = 91 then                            -- '['
    if notEnd then
      let pr := mbc ctx (ctx.sget s) p
      (fbcEndF ctx pr.1, pr.2)
    else (fbcEndF ctx p, false)
  else (p + 1, notEnd && decide (ctx.sget s = ctx.pget p))

/-- Loop of detail::matchbalance (lex.h): `b`/`e` are the open and close
units, the count starts at 1; a unit equal to the close unit is tested
first, so an open equal to the close never nests. -/
def mbalLoop (ctx : Ctx) (b e : Nat) : Nat → Nat → Nat → Option Nat
  | 0, _, _ => none
  | k + 1, s, count =>
    if s < ctx.slen then
      if ctx.sget s = e then
        if count = 1 then some (s + 1) else mbalLoop ctx b e k (s + 1) (count - 1)
      else if ctx.sget s = b then mbalLoop ctx b e k (s + 1) (count + 1)
      else mbalLoop ctx b e k (s + 1) count
    else none

/-- detail::matchbalance (lex.h): requires the subject unit at `s` to equal
the open unit at pattern position `p`; returns the position just past the
balancing close unit. -/
def matchbalance (ctx : Ctx) (s p : Nat) : Option Nat :=
  if ctx.sget s ≠ ctx.pget p then none
  else mbalLoop ctx (ctx.pget p) (ctx.pget (p + 1)) (ctx.slen + 1) (s + 1) 1

/-- detail::match_capture (lex.h): `c` is the digit unit of a backreference
token.  The C++ code indexes the capture array with c - '1' and asserts the
slot is finished with a non-null pointer; the (unreachable on validated
patterns) assertion failures and the negative index of '%0' are completed
as a failed match.  The slot is consulted only below the live level, which
is where every slot of a validated pattern's backreference lives. -/
def matchCapture (ctx : Ctx) (st : MatchState) (s c : Nat) : Option Nat :=
  if c < 49 then none
  else if c - 49 < st.level then
    match (st.caps (c - 49)).begin, (st.caps (c - 49)).length with
    | some b, Int.ofNat len =>
      if s + len ≤ ctx.slen ∧ (ctx.subj.drop b).take len = (ctx.subj.drop s).take len
      then some (s + len) else none
    | _, _ => none
  else none

/-- Scan of detail::end_capture (lex.h): the most recently opened capture
that is still unfinished, scanning from level - 1 downward. -/
def findUnfin (st : MatchState) : Nat → Option Nat
  | 0 => none
  | n + 1 => if (st.caps n).length = -1 then some n else findUnfin st n

/-- The maximal-run count at the top of detail::max_expand (lex.h). -/
def countRun (ctx : Ctx) (p : Nat) : Nat → Nat → Nat
  | 0, _ => 0
  | k + 1, s =>
    if s < ctx.slen ∧ singleMatch ctx (ctx.sget s) p then countRun ctx p k (s + 1) + 1
    else 0

/-! ### The matcher core: detail::match with detail::start_capture,
detail::end_capture, detail::max_expand and detail::min_expand (lex.h).

The C++ match function is a while loop over the pattern whose `continue`
paths are modelled as recursive calls; start_capture and end_capture are
inlined at their single call sites ('(' and ')').  The result triple is
(subject position, verdict, state) in place of the C++ pos_result plus the
in-place mutation of the state.  Note the source never touches the
matchdepth field and has no failure path other than returning false. -/

mutual

def matchFuel (ctx : Ctx) : Nat → MatchState → Nat → Nat → Nat × Bool × MatchState
  | 0, st, s, _ => (s, false, st)
  | f + 1, st, s, p =>
    if ctx.plen ≤ p then (s, true, st)    -- p == p_end: the pattern is done
    else if ctx.pget p = 40 then startCap ctx f st s (p + 1)  -- '('
    else if ctx.pget p = 41 then endCap ctx f st s (p + 1)    -- ')'
    else if ctx.pget p = 36 ∧ p + 1 = ctx.plen then   -- '$' as last pattern unit
      (s, decide (s = ctx.slen), st)
    else if ctx.pget p = 37 ∧ ctx.pget (p + 1) = 98 then  -- "%b"
      match matchbalance ctx s (p + 2) with
      | some s2 => matchFuel ctx f st s2 (p + 4)
      | none => (s, false, st)
    else if ctx.pget p = 37 ∧ ctx.pget (p + 1) = 102 then -- "%f"
      if (mbc ctx (ctx.sget s) (p + 2)).2 then
        if (mbc ctx (if s = 0 then 0 else ctx.sget (s - 1)) (p + 2)).2 then (s, false, st)
        else
          -- the source asserts *ep == ']' on the position the second
          -- bracket evaluation returned, then continues at ep + 1
          matchFuel ctx f st s ((mbc ctx (if s = 0 then 0 else ctx.sget (s - 1)) (p + 2)).1 + 1)
      else (s, false, st)
    else if ctx.pget p = 37 ∧ 48 ≤ ctx.pget (p + 1) ∧ ctx.pget (p + 1) ≤ 57 then -- %0-%9
      match matchCapture ctx st s (ctx.pget (p + 1)) with
      | some s2 => matchFuel ctx f st s2 (p + 2)
      | none => (s, false, st)
    else itemSuffix ctx f st s p
termination_by structural f _ _ _ => f

/-- detail::start_capture (lex.h): `p` is the position after '('; a ')'
right there makes it a position capture (and skips the ')').  The slot at
the current level is written, the level incremented, and on failure of the
rest the capture is undone: the level is decremented and the slot marked
unfinished (its begin field keeps the position just written). -/
def startCap (ctx : Ctx) : Nat → MatchState → Nat → Nat → Nat × Bool × MatchState
  | 0, st, s, _ => (s, false, st)
  | f + 1, st, s, p =>
    let isPos := ctx.pget p = 41
    let st2 := { setCap st st.level { begin := some s, length := if isPos then -2 else -1 }
                   with level := st.level + 1 }
    let r := matchFuel ctx f st2 s (if isPos then p + 1 else p)
    if r.2.1 then r
    else
      (r.1, false,
        { setCap r.2.2 (r.2.2.level - 1) { (r.2.2.caps (r.2.2.level - 1)) with length := -1 }
            with level := r.2.2.level - 1 })
termination_by structural f _ _ _ => f

/-- detail::end_capture (lex.h): close the most recently opened unfinished
capture with length s - start; on failure of the rest, mark it unfinished
again.  With no unfinished capture the C++ code returns failure. -/
def endCap (ctx : Ctx) : Nat → MatchState → Nat → Nat → Nat × Bool × MatchState
  | 0, st, s, _ => (s, false, st)
  | f + 1, st, s, p =>
    match findUnfin st st.level with
    | none => (s, false, st)
    | some i =>
      let st1 := setCap st i
        { st.caps i with length := (s : Int) - ((st.caps i).begin.getD 0 : Int) }
      let r := matchFuel ctx f st1 s p
      if r.2.1 then r
      else (r.1, false, setCap r.2.2 i { (r.2.2.caps i) with length := -1 })
termination_by structural f _ _ _ => f

/-- The tail of the while body of detail::match (lex.h): a single item with
its optional quantifier suffix, dispatching to the expansion loops; with no
suffix the code recurses on the rest and on failure reports the current
position; '?' falls back to the loop continuing after the suffix. -/
def itemSuffix (ctx : Ctx) : Nat → MatchState → Nat → Nat → Nat × Bool × MatchState
  | 0, st, s, _ => (s, false, st)
  | f + 1, st, s, p =>
    let pr := singleMatchPr ctx s p
    if pr.2 then
      if ctx.pget pr.1 = 43 then            -- '+': one match already done
        maxTries ctx f st (s + 1) pr.1 (countRun ctx p (ctx.slen + 1) (s + 1))
      else if ctx.pget pr.1 = 42 then       -- '*'
        maxTries ctx f st s pr.1 (countRun ctx p (ctx.slen + 1) s)
      else if ctx.pget pr.1 = 45 then       -- '-'
        minExpand ctx f st s p pr.1
      else if ctx.pget pr.1 = 63 then       -- '?'
        let r1 := matchFuel ctx f st (s + 1) (pr.1 + 1)
        if r1.2.1 then r1
        else matchFuel ctx f r1.2.2 s (pr.1 + 1)  -- the loop continues at ep + 1
      else                                  -- no suffix
        let r1 := matchFuel ctx f st (s + 1) pr.1
        if r1.2.1 then r1 else (s, false, r1.2.2)
    else if ctx.pget pr.1 = 42 ∨ ctx.pget pr.1 = 63 ∨ ctx.pget pr.1 = 45 then
      matchFuel ctx f st s (pr.1 + 1)       -- the item may match empty
    else (s, false, st)
termination_by structural f _ _ _ => f

/-- The descending loop of detail::max_expand (lex.h): try the rest of the
pattern after `i` repetitions, then i - 1, ... down to 0; a final failure
reports the position the expansion started from. -/
def maxTries (ctx : Ctx) : Nat → MatchState → Nat → Nat → Nat → Nat × Bool × MatchState
  | 0, st, s, _, _ => (s, false, st)
  | f + 1, st, s, ep, i =>
    let r := matchFuel ctx f st (s + i) (ep + 1)
    if r.2.1 then r
    else if i = 0 then (s, false, r.2.2)
    else maxTries ctx f r.2.2 s ep (i - 1)
termination_by structural f _ _ _ _ => f

/-- detail::min_expand (lex.h): try the rest of the pattern, growing the
item run by one unit on each failure while the item still matches; a final
failure reports the position the run had grown to. -/
def minExpand (ctx : Ctx) : Nat → MatchState → Nat → Nat → Nat → Nat × Bool × MatchState
  | 0, st, s, _, _ => (s, false, st)
  | f + 1, st, s, p, ep =>
    let r := matchFuel ctx f st s (ep + 1)
    if r.2.1 then r
    else if s ≠ ctx.slen ∧ singleMatch ctx (ctx.sget s) p then
      minExpand ctx f r.2.2 (s + 1) p ep
    else (s, false, r.2.2)
termination_by structural f _ _ _ _ => f

end

/-! ### Match attempts, first_match and the global iterator -/

/-- match_state::reprepstate (lex.h): reset the capture level; the slot
contents persist across attempts, as in the source. -/
def reprep (st : MatchState) : MatchState := { st with level := 0 }

/-- A fuel amply sufficient for a complete attempt: the matcher's call depth
is bounded by the pattern length (every nested call strictly advances the
pattern) and each internal loop by the subject length. -/
def topFuel (ctx : Ctx) : Nat := (ctx.plen + 2) * (ctx.slen + 2) + 2

/-- One match attempt at subject position `pos`, as performed by
pg::lex::match and gmatch_iterator::operator++: reprepstate, then
detail::match from the pattern's begin. -/
def attemptAt (ctx : Ctx) (st : MatchState) (pos : Nat) : Nat × Bool × MatchState :=
  matchFuel ctx (topFuel ctx) (reprep st) pos 0

/-- The data of a basic_match_result after a successful attempt: the
position pair and the capture store. -/
structure MRes where
  a : Nat
  b : Nat
  level : Nat
  caps : Nat → Capture

def MRes.posPair (mr : MRes) : Nat × Nat := (mr.a, mr.b)

/-- Packaging a successful attempt, shared by pg::lex::match and
gmatch_iterator::operator++: record the position pair and, when the pattern
captured nothing, synthesize the whole-match capture in slot 0 (mutating
the shared store, which is threaded onward). -/
def mkYield (pos e : Nat) (st : MatchState) : MRes × MatchState :=
  if st.level = 0 then
    let st1 := { setCap st 0 { begin := some pos, length := (e - pos : Nat) } with level := 1 }
    (⟨pos, e, 1, st1.caps⟩, st1)
  else (⟨pos, e, st.level, st.caps⟩, st)

/-- A validated pattern handle: the unit sequence after a leading '^', and
the anchor flag (pattern::anchor, lex.h). -/
structure Pat where
  units : List Nat
  anchor : Bool
deriving DecidableEq, Repr

/-- gmatch_iterator::operator++ (lex.h), iterated to the end marker: at
each position up to and including s_end attempt a match; on failure, or on
a match ending where the previous match ended, resume at one past the
returned position; otherwise yield.  The anchor flag plays no role here:
operator++ never consults it. -/
def gmatchAux (ctx : Ctx) : Nat → MatchState → Nat → Option Nat → List MRes
  | 0, _, _, _ => []
  | f + 1, st, pos, last =>
    if pos ≤ ctx.slen then
      if (attemptAt ctx st pos).2.1 = false ∨ some (attemptAt ctx st pos).1 = last then
        gmatchAux ctx f (attemptAt ctx st pos).2.2 ((attemptAt ctx st pos).1 + 1) last
      else
        (mkYield pos (attemptAt ctx st pos).1 (attemptAt ctx st pos).2.2).1 ::
          gmatchAux ctx f (mkYield pos (attemptAt ctx st pos).1 (attemptAt ctx st pos).2.2).2
            (attemptAt ctx st pos).1 (some (attemptAt ctx st pos).1)
    else []

/-- All matches yielded by iterating a gmatch_context from s_begin. -/
def gmatchPat (S : List Nat) (pt : Pat) : List MRes :=
  gmatchAux ⟨S, pt.units⟩ (2 * S.length + 4) {} 0 none

/-- The do-while loop of pg::lex::match (lex.h): attempt at `pos`; on
success build the result; on failure set pos to one past the returned
position and continue while pos ≤ s_end and the pattern is not anchored. -/
def firstMatchAux (ctx : Ctx) (anchor : Bool) : Nat → MatchState → Nat → Option MRes
  | 0, _, _ => none
  | f + 1, st, pos =>
    let r := attemptAt ctx st pos
    if r.2.1 then some (mkYield pos r.1 r.2.2).1
    else if r.1 + 1 ≤ ctx.slen ∧ anchor = false then firstMatchAux ctx anchor f r.2.2 (r.1 + 1)
    else none

/-- pg::lex::match (first_match of the spec): none models the empty match
result (position pair {-1, -1}). -/
def firstMatchPat (S : List Nat) (pt : Pat) : Option MRes :=
  firstMatchAux ⟨S, pt.units⟩ pt.anchor (S.length + 2) {} 0

/-! ### The pattern validator (pattern::pattern, lex.h) -/

/-- The error kinds of pg::lex::error_type (lex.h). -/
inductive LexErr where
  | pattern_too_complex
  | pattern_ends_with_percent
  | pattern_missing_closing_bracket
  | balanced_no_arguments
  | frontier_no_open_bracket
  | capture_too_many
  | capture_invalid_pattern
  | capture_invalid_index
  | capture_not_finished
  | capture_out_of_range
  | percent_invalid_use_in_replacement
deriving DecidableEq, Repr

/-- The validator's per-slot capture state (pattern::pattern, lex.h). -/
inductive CapState where
  | available
  | unfinished
  | finished
deriving DecidableEq, Repr

/-- The validator's scan state: the atom depth, the capture-state array
(the C++ array has MAXCAPTURES = 32 entries; it is modelled as a total map)
the open-capture level, and a ghost flag `oob` recording that the C++ code
wrote a capture-state slot at an index at or beyond MAXCAPTURES — an
out-of-bounds write into the 32-entry array, which is undefined behaviour;
the model simply keeps the value in the map and continues, as the compiled
code does in practice. -/
structure VState where
  depth : Nat
  capsV : Nat → CapState
  lvl : Nat
  oob : Bool

def initVS : VState := ⟨0, fun _ => .available, 0, false⟩

/-- Write one validator capture-state slot, recording out-of-bounds writes
in the ghost flag. -/
def setCapV (vs : VState) (i : Nat) (c : CapState) : VState :=
  { vs with capsV := fun j => if j = i then c else vs.capsV j,
            oob := vs.oob || decide (32 ≤ i) }

/-- The ')' scan of the validator: the most recently opened capture that is
still unfinished, from lvl - 1 downward. -/
def findUnfinV (capsV : Nat → CapState) : Nat → Option Nat
  | 0 => none
  | n + 1 => if capsV n = .unfinished then some n else findUnfinV capsV n

/-- std::any_of over the first lvl capture states: is any not finished. -/
def anyNotFinished (capsV : Nat → CapState) : Nat → Bool
  | 0 => false
  | n + 1 => anyNotFinished capsV n || decide (capsV n ≠ .finished)

/-- detail::find_bracket_class_end, the validating overload (lex.h).
`p` is at '[' (the call sites pass the position of '[').  Note the first
loop iteration consumes the '[' itself, so a ']' immediately after '[' (or
after "[%xy") terminates the scan. -/
def fbcV (pat : List Nat) : Nat → Nat → Except LexErr Nat
  | 0, _ => .error .pattern_missing_closing_bracket
  | k + 1, p =>
    if pat.length ≤ p then .error .pattern_missing_closing_bracket
    else if pat.getD p 0 = 37 then            -- '%': skip the escaped unit
      if pat.length ≤ p + 1 then .error .pattern_ends_with_percent
      else if pat.length ≤ p + 2 then .error .pattern_missing_closing_bracket
      else if pat.getD (p + 2) 0 = 93 then .ok (p + 3)
      else fbcV pat k (p + 3)
    else if pat.getD p 0 = 93 then .ok (p + 1)
    else fbcV pat k (p + 1)

/-- The handling shared by ordinary pattern units and non-special escapes
at the bottom of the validator loop: an optional bracket class, then an
optional quantifier suffix.  Returns the position after the item. -/
def vItem (pat : List Nat) (q : Nat) : Except LexErr Nat :=
  let step1 : Except LexErr Nat :=
    if q < pat.length ∧ pat.getD q 0 = 91 then fbcV pat (pat.length + 2) q
    else .ok (q + 1)
  match step1 with
  | .error e => .error e
  | .ok q1 =>
    if q1 < pat.length ∧
        (pat.getD q1 0 = 42 ∨ pat.getD q1 0 = 43 ∨ pat.getD q1 0 = 63 ∨ pat.getD q1 0 = 45)
    then .ok (q1 + 1) else .ok q1

/-- The single forward scan of pattern::pattern (lex.h) over the pattern
body.  Mirrors the C++ switch: '(' checks capture_level > MAXCAPTURES (not
≥, so the write below can land out of bounds), ')' closes the most recent
unfinished capture, '$' is skipped, '%' dispatches on the next unit, and
everything else is an item with an optional suffix.  On completion any
unfinished capture raises capture_not_finished and an atom depth above
MAXCCALLS raises pattern_too_complex. -/
def validateLoop (pat : List Nat) : Nat → Nat → VState → Except LexErr VState
  | 0, _, _ => .error .pattern_too_complex
  | k + 1, q, vs =>
    if pat.length ≤ q then
      if anyNotFinished vs.capsV vs.lvl then .error .capture_not_finished
      else if 200 < vs.depth then .error .pattern_too_complex
      else .ok vs
    else
      let c := pat.getD q 0
      if c = 40 then                          -- '('
        if 32 < vs.lvl then .error .capture_too_many
        else
          validateLoop pat k (q + 1)
            { setCapV vs vs.lvl .unfinished with lvl := vs.lvl + 1, depth := vs.depth + 1 }
      else if c = 41 then                     -- ')'
        match findUnfinV vs.capsV vs.lvl with
        | none => .error .capture_invalid_pattern
        | some i =>
          validateLoop pat k (q + 1) { setCapV vs i .finished with depth := vs.depth + 1 }
      else if c = 36 then validateLoop pat k (q + 1) vs   -- '$'
      else if c = 37 then                     -- '%'
        if pat.length ≤ q + 1 then .error .pattern_ends_with_percent
        else
          let d := pat.getD (q + 1) 0
          if d = 98 then                      -- 'b'
            if pat.length < q + 4 then .error .balanced_no_arguments
            else validateLoop pat k (q + 4) vs
          else if d = 102 then                -- 'f'
            if pat.getD (q + 2) 0 ≠ 91 then .error .frontier_no_open_bracket
            else
              match fbcV pat (pat.length + 2) (q + 2) with
              | .error e => .error e
              | .ok q2 => validateLoop pat k q2 vs
          else if 48 ≤ d ∧ d ≤ 57 then        -- a backreference digit
            if d = 48 then .error .capture_invalid_index
            else if vs.lvl ≤ d - 49 then .error .capture_invalid_index
            else if vs.capsV (d - 49) ≠ .finished then .error .capture_invalid_index
            else validateLoop pat k (q + 2) vs
          else
            match vItem pat (q + 1) with      -- a class letter or escaped literal
            | .error e => .error e
            | .ok q2 => validateLoop pat k q2 { vs with depth := vs.depth + 1 }
      else
        match vItem pat q with
        | .error e => .error e
        | .ok q2 => validateLoop pat k q2 { vs with depth := vs.depth + 1 }

/-- Validate a pattern body (everything after a leading '^'). -/
def validateBody (pat : List Nat) : Except LexErr VState :=
  validateLoop pat (pat.length + 2) 0 initVS

/-- pattern::pattern on a full pattern: strip a leading '^' into the anchor
flag, then validate the body. -/
def mkPat (full : List Nat) : Except LexErr Pat :=
  let anchor := full.head? = some 94
  let body := if full.head? = some 94 then full.tail else full
  match validateBody body with
  | .error e => .error e
  | .ok _ => .ok ⟨body, anchor⟩

/-- Projection for stating validator outcomes: the ghost out-of-bounds
flag of a successful validation. -/
def vOk : Except LexErr VState → Option Bool
  | .ok vs => some vs.oob
  | .error _ => none

/-- Projection for stating validator outcomes: the raised error. -/
def vErr : Except LexErr VState → Option LexErr
  | .ok _ => none
  | .error e => some e

/-! ### The substitution driver (template form of gsub, lex.h) -/

/-- The errors of the template scanner, together with a marker for the
out-of-bounds read the scanner performs when a '%' is the final template
unit (`++find` lands on r.end and is dereferenced, which is undefined for
a bounds-delimited replacement string). -/
inductive GErr where
  | lex (e : LexErr)
  | oobRead
deriving DecidableEq, Repr

/-- detail::append_number (lex.h): decimal digits, most significant first.
The recursion on n / 10 is structural on a fuel that 32 amply covers. -/
def digitsAux : Nat → Nat → List Nat
  | 0, _ => []
  | k + 1, n => (if 9 < n then digitsAux k (n / 10) else []) ++ [48 + n % 10]

def appendNumber (n : Nat) : List Nat := digitsAux 32 n

/-- The string_view conversion of a capture (detail::capture's conversion
operator): data pointer and size, the latter clamping negative lengths
(unfinished and position states) to zero. -/
def MRes.capView (mr : MRes) (i : Nat) : Nat × Nat :=
  ((mr.caps i).begin.getD 0, (max (mr.caps i).length 0).toNat)

def slice (l : List Nat) (a n : Nat) : List Nat := (l.drop a).take n

/-- One %-escape of the replacement template (gsub's inner loop, lex.h):
'%%' is a literal, '%0' the whole match, a digit a capture — where the
code treats any capture whose view is empty as a position capture and
interpolates 1 + its offset in decimal — and anything else raises
percent_invalid_use_in_replacement. -/
def applyEsc (S : List Nat) (mr : MRes) (c : Nat) : Except GErr (List Nat) :=
  if c = 37 then .ok [37]
  else if c = 48 then .ok (slice S mr.a (mr.b - mr.a))
  else if 48 ≤ c ∧ c ≤ 57 then
    if mr.level ≤ c - 49 then .error (.lex .capture_invalid_index)
    else
      let v := mr.capView (c - 49)
      if v.2 = 0 then .ok (appendNumber (1 + v.1))   -- the code comments this branch "Position capture"
      else .ok (slice S v.1 v.2)
  else .error (.lex .percent_invalid_use_in_replacement)

/-- The template scan of gsub (lex.h).  The C++ loop finds each '%' with
std::find, copies the segment before it verbatim, increments past the '%'
and dereferences; the per-unit recursion here produces the same output.
When the '%' is the final unit the incremented pointer equals r.end and the
dereference is out of bounds: that read is the oobRead marker. -/
def expandRepl (S : List Nat) (mr : MRes) : List Nat → Except GErr (List Nat)
  | [] => .ok []
  | c :: rest =>
    if c = 37 then
      match rest with
      | [] => .error .oobRead
      | c2 :: t =>
        match applyEsc S mr c2 with
        | .error e => .error e
        | .ok piece =>
          match expandRepl S mr t with
          | .error e => .error e
          | .ok r => .ok (piece ++ r)
    else
      match expandRepl S mr rest with
      | .error e => .error e
      | .ok r => .ok (c :: r)

/-- The count argument of gsub: a negative count is unlimited, otherwise at
most count matches are substituted. -/
def takeCount (l : List MRes) (count : Int) : List MRes :=
  if count < 0 then l else l.take count.toNat

/-- The output assembly of gsub (lex.h): verbatim subject slices between
matches, each match's expanded replacement, and the verbatim tail. -/
def gsubAppend (S repl : List Nat) : List MRes → Nat → Except GErr (List Nat)
  | [], cb => .ok (S.drop cb)
  | mr :: rest, cb =>
    match expandRepl S mr repl with
    | .error e => .error e
    | .ok piece =>
      match gsubAppend S repl rest mr.b with
      | .error e => .error e
      | .ok r => .ok (slice S cb (mr.a - cb) ++ piece ++ r)

/-- The template form of pg::lex::gsub (lex.h): walk the global iterator's
yields (the source interleaves iteration and appending; folding over the
yield list produces the same output) up to the count, assembling the
result. -/
def gsubPat (S : List Nat) (pt : Pat) (repl : List Nat) (count : Int) : Except GErr (List Nat) :=
  gsubAppend S repl (takeCount (gmatchPat S pt) count) 0

/-- Projection for stating gsub outcomes: the produced string. -/
def gOk : Except GErr (List Nat) → Option (List Nat)
  | .ok l => some l
  | .error _ => none

/-- Projection for stating gsub outcomes: the raised error. -/
def gErrOf : Except GErr (List Nat) → Option GErr
  | .ok _ => none
  | .error e => some e

/-- The spec-side well-formedness of a replacement template, named by the
amended claim C10: scanning %-escape pairs never leaves a '%' as the final
unprocessed unit. -/
def templateOk : List Nat → Bool
  | [] => true
  | c :: rest =>
    if c = 37 then
      match rest with
      | [] => false
      | _ :: t => templateOk t
    else templateOk rest

/-- Unit list of a string, for readable concrete inputs. -/
def str (s : String) : List Nat := s.data.map Char.toNat

/-- Projection for stating pattern-construction outcomes. -/
def pOk : Except LexErr Pat → Option Pat
  | .ok p => some p
  | .error _ => none

/-- A pattern consisting of n capture pairs "()", for claim C5. -/
def pairsPat : Nat → List Nat
  | 0 => []
  | n + 1 => 40 :: 41 :: pairsPat n

/-- A match state with one finished capture, used as a concrete entry state
by the witness of claim C8. -/
def stW : MatchState := { setCap {} 0 { begin := some 0, length := 1 } with level := 1 }

/-- A concrete match result, used by the witness of claim C10. -/
def mr0 : MRes := ⟨0, 0, 0, fun _ => {}⟩

/-! ## Helper lemmas -/

theorem setCap_caps (st : MatchState) (i : Nat) (cap : Capture) (j : Nat) :
    (setCap st i cap).caps j = if j = i then cap else st.caps j := rfl

theorem findUnfin_spec (st : MatchState) :
    ∀ n i, findUnfin st n = some i → i < n ∧ (st.caps i).length = -1 := by
  intro n
  induction n with
  | zero => intro i h; simp [findUnfin] at h
  | succ n ih =>
    intro i h
    rw [findUnfin] at h
    split at h
    · cases h
      exact ⟨Nat.lt_succ_self _, by assumption⟩
    · obtain ⟨h1, h2⟩ := ih i h
      exact ⟨Nat.lt_succ_of_lt h1, h2⟩

theorem findUnfin_congr (st1 st2 : MatchState) :
    ∀ n, (∀ i, i < n → st1.caps i = st2.caps i) → findUnfin st1 n = findUnfin st2 n := by
  intro n
  induction n with
  | zero => intro _; rfl
  | succ n ih =>
    intro h
    rw [findUnfin, findUnfin, h n (Nat.lt_succ_self n), ih (fun i hi => h i (Nat.lt_succ_of_lt hi))]

theorem mbalLoop_le (ctx : Ctx) (b e : Nat) :
    ∀ k s cnt v, mbalLoop ctx b e k s cnt = some v → s ≤ v := by
  intro k
  induction k with
  | zero => intro s cnt v h; simp [mbalLoop] at h
  | succ k ih =>
    intro s cnt v h
    rw [mbalLoop] at h
    split at h
    · split at h
      · split at h
        · cases h; omega
        · exact le_trans (Nat.le_succ s) (ih _ _ _ h)
      · split at h
        · exact le_trans (Nat.le_succ s) (ih _ _ _ h)
        · exact le_trans (Nat.le_succ s) (ih _ _ _ h)
    · cases h

theorem matchbalance_le (ctx : Ctx) (s p v : Nat) (h : matchbalance ctx s p = some v) :
    s ≤ v := by
  rw [matchbalance] at h
  split at h
  · cases h
  · exact le_trans (Nat.le_succ s) (mbalLoop_le ctx _ _ _ _ _ _ h)

theorem matchCapture_le (ctx : Ctx) (st : MatchState) (s c v : Nat)
    (h : matchCapture ctx st s c = some v) : s ≤ v := by
  rw [matchCapture] at h
  split at h
  · cases h
  · split at h
    · split at h
      · split at h
        · cases h; exact Nat.le_add_right s _
        · cases h
      · cases h
    · cases h

/-- Joint monotonicity of the matcher: the returned subject position never
precedes the position the call started from, on success and on failure. -/
theorem matchFuel_mono (ctx : Ctx) :
    ∀ f : Nat,
      (∀ st s p, s ≤ (matchFuel ctx f st s p).1)
      ∧ (∀ st s p, s ≤ (startCap ctx f st s p).1)
      ∧ (∀ st s p, s ≤ (endCap ctx f st s p).1)
      ∧ (∀ st s p, s ≤ (itemSuffix ctx f st s p).1)
      ∧ (∀ st s ep i, s ≤ (maxTries ctx f st s ep i).1)
      ∧ (∀ st s p ep, s ≤ (minExpand ctx f st s p ep).1) := by
  intro f
  induction f with
  | zero =>
    refine ⟨?_, ?_, ?_, ?_, ?_, ?_⟩ <;> intros <;>
      simp [matchFuel, startCap, endCap, itemSuffix, maxTries, minExpand]
  | succ f ih =>
    obtain ⟨ihM, ihSC, ihEC, ihIS, ihX, ihN⟩ := ih
    refine ⟨?_, ?_, ?_, ?_, ?_, ?_⟩
    · intro st s p
      simp only [matchFuel]
      repeat' split
      all_goals try dsimp only
      all_goals
        first
        | exact Nat.le_refl _
        | exact ihM _ _ _
        | exact ihSC _ _ _
        | exact ihEC _ _ _
        | exact ihIS _ _ _
        | (rename_i h; exact le_trans (matchbalance_le ctx s _ _ h) (ihM _ _ _))
        | (rename_i h; exact le_trans (matchCapture_le ctx _ s _ _ h) (ihM _ _ _))
    · intro st s p
      simp only [startCap]
      repeat' split
      all_goals try dsimp only
      all_goals first
        | exact Nat.le_refl _
        | exact ihM _ _ _
    · intro st s p
      simp only [endCap]
      repeat' split
      all_goals try dsimp only
      all_goals first
        | exact Nat.le_refl _
        | exact ihM _ _ _
    · intro st s p
      simp only [itemSuffix]
      repeat' split
      all_goals try dsimp only
      all_goals
        first
        | exact Nat.le_refl _
        | exact ihM _ _ _
        | exact ihN _ _ _ _
        | exact le_trans (Nat.le_succ s) (ihX _ _ _ _)
        | exact ihX _ _ _ _
        | exact le_trans (Nat.le_succ s) (ihM _ _ _)
    · intro st s ep i
      simp only [maxTries]
      repeat' split
      all_goals try dsimp only
      all_goals
        first
        | exact Nat.le_refl _
        | exact le_trans (Nat.le_add_right s i) (ihM _ _ _)
        | exact ihX _ _ _ _
    · intro st s p ep
      simp only [minExpand]
      repeat' split
      all_goals try dsimp only
      all_goals
        first
        | exact Nat.le_refl _
        | exact ihM _ _ _
        | exact le_trans (Nat.le_succ s) (ihN _ _ _ _)

theorem bool_false {b : Bool} (h : ¬b = true) : b = false := by
  cases b
  · rfl
  · exact absurd rfl h

/-- The rollback relation of claim C8: the second state has the same level
as the first, and agrees with it on every slot below that level. -/
def Frame (st st' : MatchState) : Prop :=
  st'.level = st.level ∧ ∀ i, i < st.level → st'.caps i = st.caps i

theorem frame_rfl (st : MatchState) : Frame st st := ⟨rfl, fun _ _ => rfl⟩

theorem frame_trans {a b c : MatchState} (h1 : Frame a b) (h2 : Frame b c) : Frame a c := by
  obtain ⟨l1, c1⟩ := h1
  obtain ⟨l2, c2⟩ := h2
  exact ⟨l2.trans l1, fun i hi => (c2 i (by omega)).trans (c1 i hi)⟩

/-- Joint rollback property of the matcher: a failing call restores the
capture level and every slot below it to their values on entry (slots at or
above the level may keep data written on the failed branch). -/
theorem matchFuel_frame (ctx : Ctx) :
    ∀ f : Nat,
      (∀ st s p, (matchFuel ctx f st s p).2.1 = false → Frame st (matchFuel ctx f st s p).2.2)
      ∧ (∀ st s p, (startCap ctx f st s p).2.1 = false → Frame st (startCap ctx f st s p).2.2)
      ∧ (∀ st s p, (endCap ctx f st s p).2.1 = false → Frame st (endCap ctx f st s p).2.2)
      ∧ (∀ st s p, (itemSuffix ctx f st s p).2.1 = false → Frame st (itemSuffix ctx f st s p).2.2)
      ∧ (∀ st s ep i, (maxTries ctx f st s ep i).2.1 = false → Frame st (maxTries ctx f st s ep i).2.2)
      ∧ (∀ st s p ep, (minExpand ctx f st s p ep).2.1 = false → Frame st (minExpand ctx f st s p ep).2.2) := by
  intro f
  induction f with
  | zero =>
    refine ⟨?_, ?_, ?_, ?_, ?_, ?_⟩ <;> intros <;>
      simp only [matchFuel, startCap, endCap, itemSuffix, maxTries, minExpand] <;>
      exact frame_rfl _
  | succ f ih =>
    obtain ⟨ihM, ihSC, ihEC, ihIS, ihX, ihN⟩ := ih
    refine ⟨?_, ?_, ?_, ?_, ?_, ?_⟩
    · intro st s p
      simp only [matchFuel]
      repeat' split
      all_goals
        first
        | exact ihM _ _ _
        | exact ihSC _ _ _
        | exact ihEC _ _ _
        | exact ihIS _ _ _
        | (intro hf; exact frame_rfl _)
    · intro st s p
      simp only [startCap]
      split <;> split
      all_goals
        first
        | (rename_i hb; intro hf; rw [hb] at hf; exact absurd hf (by simp))
        | (rename_i hb; intro _;
           obtain ⟨hl, hc⟩ := ihM _ _ _ (bool_false hb);
           simp only [setCap] at hl hc ⊢;
           exact ⟨by dsimp only; omega,
                  fun i hi => by
                    dsimp only
                    rw [if_neg (by omega), hc i (by omega), if_neg (by omega)]⟩)
    · intro st s p
      simp only [endCap]
      split
      · intro hf; exact frame_rfl _
      · rename_i i heq
        obtain ⟨hilt, hlen⟩ := findUnfin_spec st st.level i heq
        split
        · intro hf
          rename_i hb
          rw [hb] at hf
          exact absurd hf (by simp)
        · rename_i hb
          intro _
          obtain ⟨hl, hc⟩ := ihM _ _ _ (bool_false hb)
          simp only [setCap] at hl hc ⊢
          try dsimp only at hl hc
          refine ⟨by dsimp only; omega, fun j hj => ?_⟩
          dsimp only
          by_cases hji : j = i
          · subst hji
            rw [if_pos rfl, hc j (by omega), if_pos rfl]
            dsimp only
            rw [← hlen]
          · rw [if_neg hji, hc j (by omega), if_neg hji]
    · intro st s p
      simp only [itemSuffix]
      repeat' split
      all_goals
        first
        | exact ihX _ _ _ _
        | exact ihN _ _ _ _
        | (intro hf; exact frame_rfl _)
        | (rename_i hb; intro hf; rw [hb] at hf; exact Bool.noConfusion hf)
        | (rename_i hb; intro hf; exact ihM _ _ _ (bool_false hb))
        | (rename_i hb; intro hf;
           exact frame_trans (ihM _ _ _ (bool_false hb)) (ihM _ _ _ hf))
        | exact ihM _ _ _
    · intro st s ep i
      simp only [maxTries]
      repeat' split
      all_goals
        first
        | (rename_i hb; intro hf; rw [hb] at hf; exact Bool.noConfusion hf)
        | (rename_i hb h0; intro hf; exact ihM _ _ _ (bool_false hb))
        | (rename_i hb h0; intro hf;
           exact frame_trans (ihM _ _ _ (bool_false hb)) (ihX _ _ _ _ hf))
    · intro st s p ep
      simp only [minExpand]
      repeat' split
      all_goals
        first
        | (rename_i hb; intro hf; rw [hb] at hf; exact Bool.noConfusion hf)
        | (rename_i hb hc2; intro hf;
           exact frame_trans (ihM _ _ _ (bool_false hb)) (ihN _ _ _ _ hf))
        | (rename_i hb hc2; intro hf; exact ihM _ _ _ (bool_false hb))

/-- Two match states agree on their observable part: equal levels and equal
slots below the level. -/
def EqB (st1 st2 : MatchState) : Prop :=
  st1.level = st2.level ∧ ∀ i, i < st1.level → st1.caps i = st2.caps i

theorem eqB_set {st1 st2 : MatchState} (h : EqB st1 st2) (i : Nat) (c : Capture) :
    EqB (setCap st1 i c) (setCap st2 i c) := by
  obtain ⟨hl, hc⟩ := h
  refine ⟨hl, fun j hj => ?_⟩
  simp only [setCap]
  by_cases hji : j = i
  · simp [hji]
  · simp only [hji, if_false]
    exact hc j hj

theorem eqB_open (st1 st2 : MatchState) (h : EqB st1 st2) (c : Capture) :
    EqB { setCap st1 st1.level c with level := st1.level + 1 }
        { setCap st2 st2.level c with level := st2.level + 1 } := by
  obtain ⟨hl, hc⟩ := h
  refine ⟨by simp [setCap, hl], fun j hj => ?_⟩
  simp only [setCap] at hj ⊢
  try dsimp only at hj ⊢
  by_cases hji : j = st1.level
  · rw [if_pos hji, if_pos (by omega)]
  · rw [if_neg hji, if_neg (by omega), hc j (by omega)]

theorem matchCapture_congr (ctx : Ctx) (st1 st2 : MatchState) (s c : Nat)
    (h : EqB st1 st2) : matchCapture ctx st1 s c = matchCapture ctx st2 s c := by
  obtain ⟨hl, hc⟩ := h
  rw [matchCapture, matchCapture, hl]
  split
  · rfl
  · split
    · rename_i hlt
      rw [hc _ (by omega)]
    · rfl

set_option maxHeartbeats 4000000 in
/-- Joint extensionality of the matcher: two runs from states that agree on
the observable part produce the same position, the same verdict, and states
that again agree on the observable part.  In particular a fresh attempt
(level 0) is insensitive to stale slot contents left by earlier attempts. -/
theorem matchFuel_ext (ctx : Ctx) :
    ∀ f : Nat,
      (∀ st1 st2 s p, EqB st1 st2 →
        (matchFuel ctx f st1 s p).1 = (matchFuel ctx f st2 s p).1
        ∧ (matchFuel ctx f st1 s p).2.1 = (matchFuel ctx f st2 s p).2.1
        ∧ EqB (matchFuel ctx f st1 s p).2.2 (matchFuel ctx f st2 s p).2.2)
      ∧ (∀ st1 st2 s p, EqB st1 st2 →
        (startCap ctx f st1 s p).1 = (startCap ctx f st2 s p).1
        ∧ (startCap ctx f st1 s p).2.1 = (startCap ctx f st2 s p).2.1
        ∧ EqB (startCap ctx f st1 s p).2.2 (startCap ctx f st2 s p).2.2)
      ∧ (∀ st1 st2 s p, EqB st1 st2 →
        (endCap ctx f st1 s p).1 = (endCap ctx f st2 s p).1
        ∧ (endCap ctx f st1 s p).2.1 = (endCap ctx f st2 s p).2.1
        ∧ EqB (endCap ctx f st1 s p).2.2 (endCap ctx f st2 s p).2.2)
      ∧ (∀ st1 st2 s p, EqB st1 st2 →
        (itemSuffix ctx f st1 s p).1 = (itemSuffix ctx f st2 s p).1
        ∧ (itemSuffix ctx f st1 s p).2.1 = (itemSuffix ctx f st2 s p).2.1
        ∧ EqB (itemSuffix ctx f st1 s p).2.2 (itemSuffix ctx f st2 s p).2.2)
      ∧ (∀ st1 st2 s ep i, EqB st1 st2 →
        (maxTries ctx f st1 s ep i).1 = (maxTries ctx f st2 s ep i).1
        ∧ (maxTries ctx f st1 s ep i).2.1 = (maxTries ctx f st2 s ep i).2.1
        ∧ EqB (maxTries ctx f st1 s ep i).2.2 (maxTries ctx f st2 s ep i).2.2)
      ∧ (∀ st1 st2 s p ep, EqB st1 st2 →
        (minExpand ctx f st1 s p ep).1 = (minExpand ctx f st2 s p ep).1
        ∧ (minExpand ctx f st1 s p ep).2.1 = (minExpand ctx f st2 s p ep).2.1
        ∧ EqB (minExpand ctx f st1 s p ep).2.2 (minExpand ctx f st2 s p ep).2.2) := by
  intro f
  induction f with
  | zero =>
    refine ⟨?_, ?_, ?_, ?_, ?_, ?_⟩
    · intro st1 st2 s p h
      simp only [matchFuel]
      exact ⟨trivial, trivial, h⟩
    · intro st1 st2 s p h
      simp only [startCap]
      exact ⟨trivial, trivial, h⟩
    · intro st1 st2 s p h
      simp only [endCap]
      exact ⟨trivial, trivial, h⟩
    · intro st1 st2 s p h
      simp only [itemSuffix]
      exact ⟨trivial, trivial, h⟩
    · intro st1 st2 s ep i h
      simp only [maxTries]
      exact ⟨trivial, trivial, h⟩
    · intro st1 st2 s p ep h
      simp only [minExpand]
      exact ⟨trivial, trivial, h⟩
  | succ f ih =>
    obtain ⟨ihM, ihSC, ihEC, ihIS, ihX, ihN⟩ := ih
    refine ⟨?_, ?_, ?_, ?_, ?_, ?_⟩
    · intro st1 st2 s p h
      obtain ⟨hl, hcap⟩ := h
      simp only [matchFuel]
      rw [matchCapture_congr ctx st1 st2 s (ctx.pget (p + 1)) ⟨hl, hcap⟩]
      repeat' split
      all_goals
        first
        | exact ihSC _ _ _ _ ⟨hl, hcap⟩
        | exact ihEC _ _ _ _ ⟨hl, hcap⟩
        | exact ihIS _ _ _ _ ⟨hl, hcap⟩
        | exact ihM _ _ _ _ ⟨hl, hcap⟩
        | exact ⟨rfl, rfl, hl, hcap⟩
    · intro st1 st2 s p h
      obtain ⟨hl, hcap⟩ := h
      simp only [startCap]
      split
      all_goals
        obtain ⟨he, hr, hst⟩ := ihM _ _ s _ (eqB_open st1 st2 ⟨hl, hcap⟩ _)
        simp only [setCap] at he hr hst ⊢
        rw [hr]
        split
        · exact ⟨he, hr, hst⟩
        · refine ⟨he, rfl, ?_, ?_⟩
          · have hstl := hst.1
            dsimp only
            omega
          · intro j hj
            dsimp only at hj ⊢
            have hstl := hst.1
            rw [if_neg (by omega), if_neg (by omega), hst.2 j (by omega)]
    · intro st1 st2 s p h
      obtain ⟨hl, hcap⟩ := h
      have hfu : findUnfin st1 st1.level = findUnfin st2 st2.level := by
        rw [hl]
        exact findUnfin_congr st1 st2 st2.level (fun i hi => hcap i (by omega))
      simp only [endCap]
      rw [hfu]
      split
      · exact ⟨rfl, rfl, hl, hcap⟩
      · rename_i i heq
        obtain ⟨hilt, hlen⟩ := findUnfin_spec st2 st2.level i heq
        rw [hcap i (by omega)]
        obtain ⟨he, hr, hst⟩ := ihM _ _ s p (eqB_set ⟨hl, hcap⟩ i _)
        simp only [setCap] at he hr hst ⊢
        rw [hr]
        split
        · exact ⟨he, hr, hst⟩
        · refine ⟨he, rfl, ?_, ?_⟩
          · have hstl := hst.1
            dsimp only
            omega
          · intro j hj
            dsimp only at hj ⊢
            have hstl := hst.1
            by_cases hji : j = i
            · subst hji
              rw [if_pos rfl, if_pos rfl, hst.2 j hj]
            · rw [if_neg hji, if_neg hji, hst.2 j hj]
    · intro st1 st2 s p h
      simp only [itemSuffix]
      split
      · split
        · exact ihX _ _ _ _ _ h
        · split
          · exact ihX _ _ _ _ _ h
          · split
            · exact ihN _ _ _ _ _ h
            · split
              · obtain ⟨he, hr, hst⟩ :=
                  ihM _ _ (s + 1) ((singleMatchPr ctx s p).1 + 1) h
                rw [hr]
                split
                · exact ⟨he, hr, hst⟩
                · exact ihM _ _ _ _ hst
              · obtain ⟨he, hr, hst⟩ := ihM _ _ (s + 1) (singleMatchPr ctx s p).1 h
                rw [hr]
                split
                · exact ⟨he, hr, hst⟩
                · exact ⟨rfl, rfl, hst⟩
      · split
        · exact ihM _ _ _ _ h
        · exact ⟨rfl, rfl, h⟩
    · intro st1 st2 s ep i h
      simp only [maxTries]
      obtain ⟨he, hr, hst⟩ := ihM _ _ (s + i) (ep + 1) h
      rw [hr]
      split
      · exact ⟨he, hr, hst⟩
      · split
        · exact ⟨rfl, rfl, hst⟩
        · exact ihX _ _ _ _ _ hst
    · intro st1 st2 s p ep h
      simp only [minExpand]
      obtain ⟨he, hr, hst⟩ := ihM _ _ s (ep + 1) h
      rw [hr]
      split
      · exact ⟨he, hr, hst⟩
      · split
        · exact ihN _ _ _ _ _ hst
        · exact ⟨rfl, rfl, hst⟩

/-- Joint preservation of the recursion-depth field: no branch of
detail::match or its helpers ever writes matchdepth. -/
theorem matchFuel_depth (ctx : Ctx) :
    ∀ f : Nat,
      (∀ st s p, (matchFuel ctx f st s p).2.2.matchdepth = st.matchdepth)
      ∧ (∀ st s p, (startCap ctx f st s p).2.2.matchdepth = st.matchdepth)
      ∧ (∀ st s p, (endCap ctx f st s p).2.2.matchdepth = st.matchdepth)
      ∧ (∀ st s p, (itemSuffix ctx f st s p).2.2.matchdepth = st.matchdepth)
      ∧ (∀ st s ep i, (maxTries ctx f st s ep i).2.2.matchdepth = st.matchdepth)
      ∧ (∀ st s p ep, (minExpand ctx f st s p ep).2.2.matchdepth = st.matchdepth) := by
  intro f
  induction f with
  | zero =>
    refine ⟨?_, ?_, ?_, ?_, ?_, ?_⟩ <;> intros <;>
      simp only [matchFuel, startCap, endCap, itemSuffix, maxTries, minExpand]
  | succ f ih =>
    obtain ⟨ihM, ihSC, ihEC, ihIS, ihX, ihN⟩ := ih
    refine ⟨?_, ?_, ?_, ?_, ?_, ?_⟩
    · intro st s p
      simp only [matchFuel]
      repeat' split
      all_goals
        first
        | rfl
        | exact ihSC _ _ _
        | exact ihEC _ _ _
        | exact ihIS _ _ _
        | exact ihM _ _ _
    · intro st s p
      simp only [startCap]
      repeat' split
      all_goals exact ihM _ _ _
    · intro st s p
      simp only [endCap]
      repeat' split
      all_goals
        first
        | rfl
        | exact ihM _ _ _
    · intro st s p
      simp only [itemSuffix]
      repeat' split
      all_goals
        first
        | rfl
        | exact ihX _ _ _ _
        | exact ihN _ _ _ _
        | exact ihM _ _ _
        | exact (ihM _ _ _).trans (ihM _ _ _)
    · intro st s ep i
      simp only [maxTries]
      repeat' split
      all_goals
        first
        | exact ihM _ _ _
        | exact (ihX _ _ _ _).trans (ihM _ _ _)
    · intro st s p ep
      simp only [minExpand]
      repeat' split
      all_goals
        first
        | exact ihM _ _ _
        | exact (ihN _ _ _ _).trans (ihM _ _ _)

/-! ### Determinism and ordering of the global iterator -/

theorem attemptAt_mono (ctx : Ctx) (st : MatchState) (pos : Nat) :
    pos ≤ (attemptAt ctx st pos).1 :=
  (matchFuel_mono ctx (topFuel ctx)).1 (reprep st) pos 0

/-- A fresh attempt starts at capture level 0, so by extensionality its end
position and verdict are independent of the stale slot contents the entry
state carries. -/
theorem attemptAt_det (ctx : Ctx) (st1 st2 : MatchState) (pos : Nat) :
    (attemptAt ctx st1 pos).1 = (attemptAt ctx st2 pos).1 ∧
    (attemptAt ctx st1 pos).2.1 = (attemptAt ctx st2 pos).2.1 := by
  have h := (matchFuel_ext ctx (topFuel ctx)).1 (reprep st1) (reprep st2) pos 0
    ⟨rfl, fun i hi => absurd hi (Nat.not_lt_zero i)⟩
  exact ⟨h.1, h.2.1⟩

theorem mkYield_ab (pos e : Nat) (st : MatchState) :
    (mkYield pos e st).1.a = pos ∧ (mkYield pos e st).1.b = e := by
  rw [mkYield]
  split <;> exact ⟨rfl, rfl⟩

/-- Every match the iterator yields from scan position `pos` starts at or
after `pos`, ends at or after its start, and starts inside the subject
(the guard admits s_end itself). -/
theorem gmatchAux_lb (ctx : Ctx) :
    ∀ (f : Nat) (st : MatchState) (pos : Nat) (last : Option Nat),
      ∀ mr ∈ gmatchAux ctx f st pos last,
        pos ≤ mr.a ∧ mr.a ≤ mr.b ∧ mr.a ≤ ctx.slen := by
  intro f
  induction f with
  | zero => intro st pos last mr hmr; rw [gmatchAux] at hmr; cases hmr
  | succ f ih =>
    intro st pos last mr hmr
    rw [gmatchAux] at hmr
    split at hmr
    · rename_i hpos
      split at hmr
      · have h := ih _ _ _ mr hmr
        have he := attemptAt_mono ctx st pos
        exact ⟨by omega, h.2.1, h.2.2⟩
      · rcases List.mem_cons.mp hmr with hEq | hTail
        · subst hEq
          have hab := mkYield_ab pos (attemptAt ctx st pos).1 (attemptAt ctx st pos).2.2
          have he := attemptAt_mono ctx st pos
          rw [hab.1, hab.2]
          exact ⟨Nat.le_refl _, he, hpos⟩
        · have h := ih _ _ _ mr hTail
          have he := attemptAt_mono ctx st pos
          exact ⟨by omega, h.2.1, h.2.2⟩
    · cases hmr

/-- After yielding an empty match at `pos` (so last = some pos and a fresh
attempt at `pos` again ends at `pos`), every further yield starts strictly
after `pos`: the repeated attempt is rejected by the last-match rule and the
scan resumes at pos + 1. -/
theorem gmatchAux_repeat_lb (ctx : Ctx) :
    ∀ (f : Nat) (st st0 : MatchState) (pos : Nat),
      (attemptAt ctx st0 pos).1 = pos →
      ∀ z ∈ gmatchAux ctx f st pos (some pos), pos + 1 ≤ z.a := by
  intro f
  cases f with
  | zero =>
    intro st st0 pos _ z hz
    rw [gmatchAux] at hz
    cases hz
  | succ f =>
    intro st st0 pos heq z hz
    rw [gmatchAux] at hz
    split at hz
    · have hdet := attemptAt_det ctx st st0 pos
      have hcond : (attemptAt ctx st pos).2.1 = false ∨
          some (attemptAt ctx st pos).1 = some pos := by
        right
        rw [hdet.1, heq]
      rw [if_pos hcond] at hz
      have h := gmatchAux_lb ctx f _ _ _ z hz
      have h1 : (attemptAt ctx st pos).1 = pos := by rw [hdet.1, heq]
      omega
    · cases hz

/-- The yields of the global iterator are chained: each match ends no later
than the next one starts, and each match starts strictly before the next
(also after an empty match, by the last-match rule). -/
theorem gmatchAux_chain (ctx : Ctx) :
    ∀ (f : Nat) (st : MatchState) (pos : Nat) (last : Option Nat),
      List.Chain' (fun x y : MRes => x.b ≤ y.a ∧ x.a < y.a)
        (gmatchAux ctx f st pos last) := by
  intro f
  induction f with
  | zero => intro st pos last; rw [gmatchAux]; exact List.chain'_nil
  | succ f ih =>
    intro st pos last
    rw [gmatchAux]
    split
    · split
      · exact ih _ _ _
      · refine List.chain'_cons'.mpr ⟨?_, ih _ _ _⟩
        intro z hz
        have hzmem := List.mem_of_mem_head? hz
        have hlb := gmatchAux_lb ctx f _ _ _ z hzmem
        have hab := mkYield_ab pos (attemptAt ctx st pos).1 (attemptAt ctx st pos).2.2
        rw [hab.1, hab.2]
        have he := attemptAt_mono ctx st pos
        refine ⟨hlb.1, ?_⟩
        by_cases hee : pos < (attemptAt ctx st pos).1
        · omega
        · have heq : (attemptAt ctx st pos).1 = pos := by omega
          rw [heq] at hzmem
          have h2 := gmatchAux_repeat_lb ctx f _ st pos heq z hzmem
          omega
    · exact List.chain'_nil

/-- A strictly increasing chain of matches whose start positions are bounded
by n and whose first start is at least k has at most n + 1 - k entries. -/
theorem chainCount :
    ∀ (L : List MRes) (k n : Nat),
      List.Chain' (fun x y : MRes => x.b ≤ y.a ∧ x.a < y.a) L →
      (∀ mr ∈ L, mr.a ≤ n) →
      (∀ mr ∈ L.head?, k ≤ mr.a) →
      L.length ≤ n + 1 - k := by
  intro L
  induction L with
  | nil => intro k n _ _ _; simp only [List.length_nil]; omega
  | cons x t ih =>
    intro k n hch hb hk
    obtain ⟨hhead, hch2⟩ := List.chain'_cons'.mp hch
    have hkx : k ≤ x.a := hk x rfl
    have hxn : x.a ≤ n := hb x (List.mem_cons_self x t)
    have ht : t.length ≤ n + 1 - (x.a + 1) := by
      refine ih (x.a + 1) n hch2 (fun mr hmr => hb mr (List.mem_cons_of_mem x hmr)) ?_
      intro mr hmr
      have h3 := hhead mr hmr
      omega
    simp only [List.length_cons]
    omega

/-! ### The template scanner stays inside well-formed templates -/

theorem applyEsc_no_oob (S : List Nat) (mr : MRes) (c : Nat) :
    applyEsc S mr c ≠ Except.error GErr.oobRead := by
  simp only [applyEsc]
  repeat' split
  all_goals simp

theorem templateOk_pct (c2 : Nat) (t : List Nat) :
    templateOk (37 :: c2 :: t) = templateOk t := by
  rw [templateOk, if_pos rfl]

theorem expandRepl_pct (S : List Nat) (mr : MRes) (c2 : Nat) (t : List Nat) :
    expandRepl S mr (37 :: c2 :: t) =
      match applyEsc S mr c2 with
      | .error e => .error e
      | .ok piece =>
        match expandRepl S mr t with
        | .error e => .error e
        | .ok r => .ok (piece ++ r) := by
  rw [expandRepl, if_pos rfl]

/-- A template in which every '%' has a following unit is expanded without
the out-of-bounds read: the scanner consumes escapes in pairs. -/
theorem expandRepl_no_oob (S : List Nat) (mr : MRes) :
    ∀ (n : Nat) (repl : List Nat), repl.length ≤ n → templateOk repl = true →
      expandRepl S mr repl ≠ Except.error GErr.oobRead := by
  intro n
  induction n with
  | zero =>
    intro repl hlen htok
    have hnil : repl = [] := List.eq_nil_of_length_eq_zero (by omega)
    subst hnil
    rw [expandRepl]
    exact fun h => Except.noConfusion h
  | succ n ih =>
    intro repl hlen htok
    cases repl with
    | nil =>
      rw [expandRepl]
      exact fun h => Except.noConfusion h
    | cons c rest =>
      by_cases hc : c = 37
      · subst hc
        cases rest with
        | nil =>
          rw [templateOk] at htok
          simp at htok
        | cons c2 t =>
          rw [expandRepl_pct]
          have htok2 : templateOk t = true := htok
          have hlt : t.length ≤ n := by
            simp only [List.length_cons] at hlen
            omega
          have hrec := ih t hlt htok2
          have hesc := applyEsc_no_oob S mr c2
          cases he : applyEsc S mr c2 with
          | error e =>
            rw [he] at hesc
            exact hesc
          | ok piece =>
            cases hr : expandRepl S mr t with
            | error e =>
              rw [hr] at hrec
              exact hrec
            | ok r =>
              exact fun h => Except.noConfusion h
      · have htok2 : templateOk rest = true := by
          rw [templateOk.eq_def] at htok
          dsimp only at htok
          rw [if_neg hc] at htok
          exact htok
        have hlt : rest.length ≤ n := by
          simp only [List.length_cons] at hlen
          omega
        have hrec := ih rest hlt htok2
        rw [expandRepl.eq_def]
        dsimp only
        rw [if_neg hc]
        cases hr : expandRepl S mr rest with
        | error e =>
          rw [hr] at hrec
          exact hrec
        | ok r =>
          exact fun h => Except.noConfusion h

/-- The whole gsub assembly inherits the bound: with a well-formed template
no out-of-bounds read occurs for any match list. -/
theorem gsubAppend_no_oob (S repl : List Nat) (h : templateOk repl = true) :
    ∀ (l : List MRes) (cb : Nat), gsubAppend S repl l cb ≠ Except.error GErr.oobRead := by
  intro l
  induction l with
  | nil =>
    intro cb
    rw [gsubAppend]
    exact fun h2 => Except.noConfusion h2
  | cons mr rest ih =>
    intro cb
    rw [gsubAppend]
    have hexp := expandRepl_no_oob S mr repl.length repl (Nat.le_refl _) h
    cases he : expandRepl S mr repl with
    | error e =>
      rw [he] at hexp
      exact hexp
    | ok piece =>
      cases hg : gsubAppend S repl rest mr.b with
      | error e =>
        have h3 := ih mr.b
        rw [hg] at h3
        exact h3
      | ok r =>
        exact fun h2 => Except.noConfusion h2

/-! ## The claims -/

/-- C1 (amended): pg::lex::match honours the anchor flag, but
gmatch_iterator::operator++ never consults it: iterating a pattern yields
exactly what iterating the same pattern without the anchor yields, so an
anchored pattern is scanned at every position, not only at s_begin. -/
theorem C1_anchor_ignored_by_iterator (S u : List Nat) :
    gmatchPat S ⟨u, true⟩ = gmatchPat S ⟨u, false⟩ := rfl

/-- C1 counterexample: the pattern string of a caret followed by the unit
'a' validates as an anchored pattern, yet iterating it over "aa" yields two
matches, the second starting at position 1, not at s_begin. -/
theorem C1_counterexample :
    pOk (mkPat (str ("^a"))) = some ⟨str ("a"), true⟩ ∧
    (gmatchPat (str ("aa")) ⟨str ("a"), true⟩).map MRes.posPair = [(0, 1), (1, 2)] := by
  decide

/-- C2: after a failed attempt the scan resumes at one past the position the
attempt returned, not one past the attempt's start.  On "<a><>x" with the
pattern "%b<>x" the attempt at 0 fails returning position 3, so the next
attempt is at 4 and positions 1 to 3 are never tried; the attempt at 3
succeeds, so first_match and the iterator miss the subject's only match. -/
theorem C2_scan_skips_positions :
    (attemptAt ⟨str ("<a><>x"), str ("%b<>x")⟩ {} 0).2.1 = false ∧
    (attemptAt ⟨str ("<a><>x"), str ("%b<>x")⟩ {} 0).1 = 3 ∧
    (attemptAt ⟨str ("<a><>x"), str ("%b<>x")⟩ {} 3).2.1 = true ∧
    (firstMatchPat (str ("<a><>x")) ⟨str ("%b<>x"), false⟩).map MRes.posPair = none ∧
    (gmatchPat (str ("<a><>x")) ⟨str ("%b<>x"), false⟩).map MRes.posPair = [] := by
  decide

/-- C3 (amended): the matcher never writes the recursion-depth field: every
run returns it exactly as it entered, and the matcher has no error path at
all.  The complexity limit lives in the validator instead, as an atom
count. -/
theorem C3_matchdepth_never_written (ctx : Ctx) (f : Nat) (st : MatchState) (s p : Nat) :
    (matchFuel ctx f st s p).2.2.matchdepth = st.matchdepth :=
  (matchFuel_depth ctx f).1 st s p

set_option maxRecDepth 8000 in
set_option maxHeartbeats 2000000 in
/-- C3 counterexample: a backtracking run leaves the depth counter at its
initial 200 although it recursed, and pattern_too_complex is raised by the
validator's atom count: 201 plain pattern units exceed it, 200 pass. -/
theorem C3_counterexample :
    (attemptAt ⟨str ("aaa"), str ("a*a*")⟩ {} 0).2.2.matchdepth = 200 ∧
    vErr (validateBody (List.replicate 201 97)) = some LexErr.pattern_too_complex ∧
    vErr (validateBody (List.replicate 200 97)) = none := by
  decide

set_option maxRecDepth 8000 in
set_option maxHeartbeats 2000000 in
/-- C4: the template form of gsub treats every capture whose view is empty
as a position capture.  "(x*)" is an ordinary capture and validates; on the
empty subject it finishes once with empty text at position 0, and the
template matter of a percent and the digit one interpolates the decimal
offset 1 instead of the capture's empty text. -/
theorem C4_empty_capture_as_position :
    pOk (mkPat (str ("(x*)"))) = some ⟨str ("(x*)"), false⟩ ∧
    gOk (gsubPat (str ("")) ⟨str ("(x*)"), false⟩ (str ("<%1>")) (-1)) =
      some (str ("<1>")) := by
  decide

set_option maxRecDepth 8000 in
set_option maxHeartbeats 2000000 in
/-- C5: the validator's capture check is off by one.  32 capture pairs
validate without touching a slot beyond the array; 33 pairs still validate
but the 33rd open writes capture-state slot 32, one past the 32-entry
array (the ghost flag records the out-of-bounds write); only a 34th open
raises capture_too_many. -/
theorem C5_capture_level_off_by_one :
    vOk (validateBody (pairsPat 32)) = some false ∧
    vOk (validateBody (pairsPat 33)) = some true ∧
    vErr (validateBody (pairsPat 34)) = some LexErr.capture_too_many := by
  decide

/-- C6: the validator accepts the empty bracket classes "[]" and "[^]": its
bracket scan starts at the opening bracket, whose consumption lets the
immediately following close bracket terminate the class, so both patterns
validate successfully instead of failing. -/
theorem C6_empty_bracket_class_validates :
    vOk (validateBody (str ("[]"))) = some false ∧
    vOk (validateBody (str ("[^]"))) = some false := by
  decide

/-- C7: the frontier construct misbehaves on negated sets.  On "ax" at
position 1 the previous unit 'a' is not in the set of "%f[^ab]" and the
current unit 'x' is, so the frontier is required to succeed; but the second
bracket evaluation returned from inside the set, the continuation position
lands on the set body, the trailing close bracket is then matched as a
literal pattern unit, and the attempt fails.  Positive sets and the
past-the-end frontier of a percent-z set behave as specified. -/
theorem C7_negated_frontier_misparsed :
    (mbc ⟨str ("ax"), str ("%f[^ab]")⟩ 97 2).2 = false ∧
    (mbc ⟨str ("ax"), str ("%f[^ab]")⟩ 120 2).2 = true ∧
    (attemptAt ⟨str ("ax"), str ("%f[^ab]")⟩ {} 1).2.1 = false ∧
    (attemptAt ⟨str ("ax"), str ("%f[ab]")⟩ {} 0).2.1 = true ∧
    (attemptAt ⟨str ("x"), str ("%f[%z]")⟩ {} 1).2.1 = true := by
  decide

/-- C8 (amended): a failing run of the matcher restores the capture level
and every slot below that level to their values on entry.  Slots at or
above the restored level are not part of the guarantee: an undone open
capture keeps the begin position written on the failed branch. -/
theorem C8_failed_branch_restores_frame (ctx : Ctx) (f : Nat) (st : MatchState)
    (s p : Nat) (h : (matchFuel ctx f st s p).2.1 = false) :
    (matchFuel ctx f st s p).2.2.level = st.level ∧
    ∀ i, i < st.level → (matchFuel ctx f st s p).2.2.caps i = st.caps i :=
  (matchFuel_frame ctx f).1 st s p h

/-- C8 witness: a concrete failing run from a state with one finished
capture, whose level and slot 0 the theorem restores. -/
theorem C8_failed_branch_restores_frame_witness :
    (matchFuel ⟨str ("b"), str ("(a)")⟩ 10 stW 0 0).2.1 = false ∧
    ((matchFuel ⟨str ("b"), str ("(a)")⟩ 10 stW 0 0).2.2.level = stW.level ∧
      ∀ i, i < stW.level →
        (matchFuel ⟨str ("b"), str ("(a)")⟩ 10 stW 0 0).2.2.caps i = stW.caps i) :=
  ⟨by decide,
    C8_failed_branch_restores_frame ⟨str ("b"), str ("(a)")⟩ 10 stW 0 0 (by decide)⟩

/-- C8 counterexample: the store is not restored exactly.  Matching "(a)"
against "b" from the empty state fails, and the failed branch leaves slot 0
with the begin position it wrote, different from the slot on entry. -/
theorem C8_counterexample :
    (matchFuel ⟨str ("b"), str ("(a)")⟩ 10 ({} : MatchState) 0 0).2.1 = false ∧
    (matchFuel ⟨str ("b"), str ("(a)")⟩ 10 ({} : MatchState) 0 0).2.2.caps 0 ≠
      ({} : MatchState).caps 0 := by
  decide

/-- C9: the sequence the global iterator yields has non-decreasing start
positions, non-overlapping ranges, a strict start increase after an empty
match, and at most one more match than the subject has units. -/
theorem C9_iterator_yield_ordering (S : List Nat) (pt : Pat) :
    List.Chain' (fun x y : MRes => x.a ≤ y.a) (gmatchPat S pt) ∧
    List.Chain' (fun x y : MRes => x.b ≤ y.a) (gmatchPat S pt) ∧
    List.Chain' (fun x y : MRes => x.b = x.a → x.a < y.a) (gmatchPat S pt) ∧
    (gmatchPat S pt).length ≤ S.length + 1 := by
  have hch := gmatchAux_chain ⟨S, pt.units⟩ (2 * S.length + 4) {} 0 none
  have hlb := gmatchAux_lb ⟨S, pt.units⟩ (2 * S.length + 4) {} 0 none
  refine ⟨?_, ?_, ?_, ?_⟩
  · exact List.Chain'.imp (fun a b h => Nat.le_of_lt h.2) hch
  · exact List.Chain'.imp (fun a b h => h.1) hch
  · exact List.Chain'.imp (fun a b h => fun _ => h.2) hch
  · exact chainCount (gmatchAux ⟨S, pt.units⟩ (2 * S.length + 4) {} 0 none) 0 S.length
      hch (fun mr hmr => (hlb mr hmr).2.2) (fun mr _ => Nat.zero_le _)

/-- C10 (amended): on a template in which every percent has a following
unit, the template form of gsub never performs the out-of-bounds read: the
scanner consumes escapes in pairs and stays inside the template. -/
theorem C10_wellformed_template_in_bounds (S : List Nat) (pt : Pat) (repl : List Nat)
    (count : Int) (h : templateOk repl = true) :
    gsubPat S pt repl count ≠ Except.error GErr.oobRead :=
  gsubAppend_no_oob S repl h (takeCount (gmatchPat S pt) count) 0

/-- C10 witness: a concrete substitution with the escaped-percent template,
in bounds by the theorem. -/
theorem C10_wellformed_template_in_bounds_witness :
    templateOk (str ("%%")) = true ∧
    gsubPat (str ("a")) ⟨str ("a"), false⟩ (str ("%%")) (-1) ≠
      Except.error GErr.oobRead :=
  ⟨by decide,
    C10_wellformed_template_in_bounds (str ("a")) ⟨str ("a"), false⟩ (str ("%%")) (-1)
      (by decide)⟩

/-- C10 counterexample: a template whose final unit is a bare percent makes
the scanner increment past it and read the unit at the template's end: the
substitution ends in the out-of-bounds read instead of deciding the
substitution inside the template's bounds. -/
theorem C10_counterexample :
    gErrOf (gsubPat (str ("a")) ⟨str ("a"), false⟩ (str ("%")) (-1)) =
      some GErr.oobRead := by
  decide

end PgLex
